import Mathlib

/-!
# axiom-log-this-go: field chains, record handling and the bounded shipper

A shallow embedding of `src/log.go` (namespace `LogThis.Root`) and
`src/pkg/logthis.go` (namespace `LogThis.Pkg`).  The parts the two files share
verbatim (`AppendCtx`, `randSeq`, the guarded block of `FromRequest`) are
embedded once in `LogThis`.

Go's `[]slog.Attr` is embedded the way the Go runtime represents it: a slice
header (backing array, length, capacity) over a heap of arrays, with `append`
writing in place whenever the length is below the capacity.
-/

namespace LogThis

/-! ## Go values -/

/-- Instants of `time.Time`, as wall-clock nanoseconds relative to the Unix epoch. -/
abbrev Time := Int

/-- Dynamic values of Go's `any`, as far as the handlers distinguish them. -/
inductive GoAny where
  | nil
  | str (s : String)
  | int64 (i : Int)
  | bool (b : Bool)
  | time (t : Time)
  | other (tag : Nat)
  deriving DecidableEq, Repr

/-- The `slog.Value` kinds that the two files construct or inspect. -/
inductive Value where
  | StringValue (s : String)
  | Int64Value (i : Int)
  | BoolValue (b : Bool)
  | TimeValue (t : Time)
  | AnyValue (x : GoAny)
  deriving DecidableEq, Repr

/-- Go's `slog.Value.Any`: the underlying Go value. -/
def Value.Any : Value → GoAny
  | .StringValue s => .str s
  | .Int64Value i => .int64 i
  | .BoolValue b => .bool b
  | .TimeValue t => .time t
  | .AnyValue x => x

/-- Go's `slog.Attr`. -/
structure Attr where
  Key : String
  Value : Value
  deriving DecidableEq, Repr

/-- The zero `slog.Attr`, which fills the unused cells of a fresh array. -/
def Attr.zero : Attr := ⟨"", .AnyValue .nil⟩

/-- Go's `slog.String`. -/
def slogString (key value : String) : Attr := ⟨key, .StringValue value⟩

/-- Go's `slog.Time`. -/
def slogTime (key : String) (t : Time) : Attr := ⟨key, .TimeValue t⟩

/-! ## Slices over a heap of backing arrays -/

/-- The heap: backing arrays of `slog.Attr`, addressed by their index. -/
abbrev Heap := List (List Attr)

/-- A slice header: backing array, length, capacity. -/
structure Slice where
  ptr : Nat
  len : Nat
  cap : Nat
  deriving DecidableEq, Repr

/-- The backing array of a slice (empty when the address is not allocated). -/
def Heap.array (h : Heap) (p : Nat) : List Attr := h.getD p []

/-- The elements visible through a slice: the first `len` cells of its array. -/
def Slice.read (h : Heap) (s : Slice) : List Attr := (h.array s.ptr).take s.len

/-- A slice header is valid in a heap when its capacity lies within its array. -/
def Slice.valid (h : Heap) (s : Slice) : Prop :=
  s.len ≤ s.cap ∧ s.cap ≤ (h.array s.ptr).length

instance (h : Heap) (s : Slice) : Decidable (s.valid h) := by
  unfold Slice.valid; exact inferInstance

/-- The size in bytes of a `slog.Attr` on a 64-bit platform: a string header
(16) and a `slog.Value` (a `uint64` and an interface, 24). -/
def attrSize : Nat := 40

/-- The allocation size classes of the Go runtime (`class_to_size`). -/
def classToSize : List Nat :=
  [8, 16, 24, 32, 48, 64, 80, 96, 112, 128, 144, 160, 176, 192, 208, 224, 240, 256,
   288, 320, 352, 384, 416, 448, 480, 512, 576, 640, 704, 768, 896, 1024, 1152, 1280,
   1408, 1536, 1792, 2048, 2304, 2688, 3072, 3200, 3456, 4096, 4864, 5120, 5376, 6144,
   6528, 6784, 6912, 8192, 9472, 9728, 10240, 10880, 12288, 13568, 14336, 16384, 18432,
   19072, 20480, 21760, 24576, 27264, 28672, 32768]

/-- Go's `runtime.roundupsize` for memory that holds pointers: the bytes the
allocator really hands out for a request.  Requests above 512 bytes carry an
8-byte allocation header, small requests are rounded up to a size class, large
ones to whole pages of 8192 bytes. -/
def roundupsize (size : Nat) : Nat :=
  if size ≤ 32768 - 8 then
    let reqSize := if size > 512 then size + 8 else size
    match classToSize.find? (fun c => decide (reqSize ≤ c)) with
    | some c => c - (reqSize - size)
    | none => size
  else
    (size + 8191) / 8192 * 8192

/-- The loop of `nextslicecap` for capacities from 256 on: grow by a quarter
plus 192 until the new length fits (`fuel` bounds the iterations). -/
def growLoop : Nat → Nat → Nat → Nat
  | 0, newcap, _ => newcap
  | fuel + 1, newcap, newLen =>
    let newcap := newcap + (newcap + 3 * 256) / 4
    if newcap ≥ newLen then newcap else growLoop fuel newcap newLen

/-- Go's `runtime.nextslicecap`. -/
def nextslicecap (newLen oldCap : Nat) : Nat :=
  let doublecap := oldCap + oldCap
  if newLen > doublecap then newLen
  else if oldCap < 256 then doublecap
  else growLoop newLen oldCap newLen

/-- The capacity the Go runtime (`runtime.growslice`, Go 1.22 and later, 64-bit)
gives the new array when one `slog.Attr` is appended to a full slice of capacity
`c`: `nextslicecap`, then as many elements as fit the bytes the allocator hands
out.  From an empty slice the capacities run 1, 2, 4, 8, 17, 35, 76. -/
def goGrow (c : Nat) : Nat :=
  roundupsize (nextslicecap (c + 1) c * attrSize) / attrSize

/-- Go's built-in `append(s, a)` for one element.  With spare capacity the
element is written in place into the shared backing array; otherwise a new array
is allocated (its capacity given by the growth policy `grow`, and never less
than the new length), the visible elements are copied and the element added. -/
def goAppend (grow : Nat → Nat) (h : Heap) (s : Slice) (a : Attr) : Heap × Slice :=
  if s.len < s.cap then
    (h.set s.ptr ((h.array s.ptr).set s.len a), { s with len := s.len + 1 })
  else
    let newcap := max (s.len + 1) (grow s.cap)
    let arr := s.read h ++ [a] ++ List.replicate (newcap - (s.len + 1)) Attr.zero
    (h ++ [arr], { ptr := h.length, len := s.len + 1, cap := newcap })

/-! ## Contexts -/

/-- Values stored in a `context.Context`: a `[]slog.Attr` or anything else. -/
inductive CtxVal where
  | attrs (s : Slice)
  | other (tag : Nat)
  deriving DecidableEq, Repr

/-- Go's `context.Context`, as far as `Value` can tell: the background context
and `context.WithValue` layers over it. -/
inductive Context where
  | background
  | withValue (parent : Context) (key : String) (val : CtxVal)
  deriving DecidableEq, Repr

/-- Go's `Context.Value`: the innermost binding of the key. -/
def Context.Value : Context → String → Option CtxVal
  | .background, _ => none
  | .withValue parent key val, k => if key = k then some val else parent.Value k

def slogFields : String := "slog_fields"

/-- The type assertion `ctx.Value(slogFields).([]slog.Attr)`. -/
def Context.attrs (ctx : Context) : Option Slice :=
  match ctx.Value slogFields with
  | some (.attrs s) => some s
  | _ => none

/-- The function `AppendCtx` of `src/log.go` and of `src/pkg/logthis.go` (the two are
identical).  A nil parent is `none`. -/
def AppendCtx (grow : Nat → Nat) (h : Heap) (parent : Option Context) (attr : Attr) :
    Heap × Context :=
  let parent := match parent with
    | none => Context.background
    | some p => p
  match parent.attrs with
  | some v =>
    let r := goAppend grow h v attr
    (r.1, Context.withValue parent slogFields (.attrs r.2))
  | none =>
    -- `v := []slog.Attr{}`: an empty slice of capacity zero
    let r := goAppend grow h ⟨h.length, 0, 0⟩ attr
    (r.1, Context.withValue parent slogFields (.attrs r.2))

/-- The entries of the chain a context carries, read the way `Handle` reads
them; a context with no chain has no entries. -/
def entries (h : Heap) (ctx : Context) : List Attr :=
  match ctx.attrs with
  | some s => s.read h
  | none => []

/-- The entries of an optional (possibly nil) parent. -/
def entriesOpt (h : Heap) (parent : Option Context) : List Attr :=
  match parent with
  | none => []
  | some p => entries h p

/-- A context is valid in a heap when the chain it carries, if any, is. -/
def Context.valid (h : Heap) (ctx : Context) : Prop :=
  match ctx.attrs with
  | some s => s.valid h
  | none => True

instance (h : Heap) (ctx : Context) : Decidable (ctx.valid h) := by
  unfold Context.valid; split <;> exact inferInstance

/-- Validity of an optional parent. -/
def validOpt (h : Heap) (parent : Option Context) : Prop :=
  match parent with
  | none => True
  | some p => p.valid h

instance (h : Heap) (p : Option Context) : Decidable (validOpt h p) := by
  unfold validOpt; split <;> exact inferInstance

/-- A chain built by successive `AppendCtx` calls, each on the result of the
one before, starting from a (possibly nil) parent. -/
def buildChain (grow : Nat → Nat) : Heap → Option Context → List Attr → Heap × Option Context
  | h, parent, [] => (h, parent)
  | h, parent, a :: as =>
    let r := AppendCtx grow h parent a
    buildChain grow r.1 (some r.2) as

/-- Two derivations from the same parent, one after the other:
`c1 := AppendCtx(p, a1); c2 := AppendCtx(p, a2)`.  Gives the final heap, `c1`
and `c2`. -/
def deriveTwo (grow : Nat → Nat) (h : Heap) (p : Context) (a1 a2 : Attr) :
    Heap × Context × Context :=
  let r1 := AppendCtx grow h (some p) a1
  let r2 := AppendCtx grow r1.1 (some p) a2
  (r2.1, r1.2, r2.2)

/-- The chain `id, service, startedAt` that `FromRequest` of `src/log.go` builds
before it looks at the request, in an empty heap: three elements in an array of
capacity four. -/
def chainOfThree : Heap × Option Context :=
  buildChain goGrow [] none
    [slogString "id" "abc", slogString "service" "svc", slogTime "startedAt" 0]

/-- Two handlers deriving from `chainOfThree`, the first adding `user=alice`,
the second `job=42`. -/
def siblingsOfThree : Heap × Context × Context :=
  match chainOfThree with
  | (h, some p) => deriveTwo goGrow h p (slogString "user" "alice") (slogString "job" "42")
  | (h, none) => (h, Context.background, Context.background)

/-! ## Records, the field map, time -/

/-- Go's `slog.Record`, as far as `Handle` reads it. -/
structure Record where
  Message : String
  Level : Int
  Time : Time
  attrs : List Attr
  deriving Repr

/-- Go's `fmt.Sprintf("%+d", v)`. -/
def fmtSigned (v : Int) : String :=
  (if 0 ≤ v then "+" else "-") ++ toString v.natAbs

/-- Go's `slog.Level.String`. -/
def levelString (l : Int) : String :=
  let str := fun (base : String) (val : Int) =>
    if val = 0 then base else base ++ fmtSigned val
  if l < 0 then str "DEBUG" (l - (-4))
  else if l < 4 then str "INFO" (l - 0)
  else if l < 8 then str "WARN" (l - 4)
  else str "ERROR" (l - 8)

/-- Wrap-around of signed 64-bit arithmetic. -/
def wrap64 (x : Int) : Int := (x + 2 ^ 63) % 2 ^ 64 - 2 ^ 63

/-- Go's `time.Time.UnixMicro`. -/
def unixMicro (t : Time) : Int := wrap64 (t / 1000)

def minDuration : Int := -(2 ^ 63)

def maxDuration : Int := 2 ^ 63 - 1

/-- Go's `time.Since(t).Nanoseconds()` with the clock reading `now`:
`now.Sub(t)`, which saturates at the bounds of `time.Duration` (an `int64` of
nanoseconds). -/
def since (now t : Int) : Int :=
  if now - t < minDuration then minDuration
  else if maxDuration < now - t then maxDuration
  else now - t

/-- The `map[string]any` that `Handle` fills, as an association list with at
most one entry per key. -/
abbrev Fields := List (String × GoAny)

/-- Go's `fields[k] = v`. -/
def Fields.set (m : Fields) (k : String) (v : GoAny) : Fields :=
  (k, v) :: m.filter (fun e => decide (e.1 ≠ k))

/-- Go's `fields[k]`, with `none` for a missing key. -/
def Fields.get (m : Fields) (k : String) : Option GoAny :=
  (m.find? (fun e => decide (e.1 = k))).map (fun e => e.2)

/-- The loop `for _, attr := range attrs { fields[attr.Key] = attr.Value.Any() }`. -/
def Fields.setAll (m : Fields) (attrs : List Attr) : Fields :=
  attrs.foldl (fun m attr => m.set attr.Key attr.Value.Any) m

/-- The value of the last entry of a chain that has key `k`. -/
def lastValue (es : List Attr) (k : String) : Option Value :=
  ((es.filter (fun e => decide (e.Key = k))).getLast?).map (fun e => e.Value)

/-- What `json.Marshal` is called on: the field map, or `[]any{fields}`. -/
inductive JsonArg where
  | object (fields : Fields)
  | array (elems : List Fields)
  deriving Repr

/-- What a call of `Handle` does to the outside, in order. -/
inductive Effect where
  -- `h.l.Println(line)`: one line written to the handler's sink
  | sinkPrintln (line : String)
  -- `log.Println(msg)` on the standard logger
  | stdLog (msg : String)
  -- a call `sendLogOverHTTP(ctx, &body)`
  | sendLogOverHTTP (body : String)
  deriving DecidableEq, Repr

/-- The outcome of `Handle`: the returned error, the field map it rendered and
its effects. -/
structure HandleResult where
  err : Option String
  fields : Fields
  effects : List Effect
  deriving Repr

/-- The lines written to the handler's sink. -/
def sinkLines (es : List Effect) : List String :=
  es.filterMap (fun e => match e with
    | .sinkPrintln line => some line
    | _ => none)

/-- The bodies handed to `sendLogOverHTTP`. -/
def shipped (es : List Effect) : List String :=
  es.filterMap (fun e => match e with
    | .sendLogOverHTTP body => some body
    | _ => none)

/-- Go's `Handler` struct of both files (the embedded `slog.Handler` and the
logger `l` show only through the effects). -/
structure Handler where
  startedAt : Time
  deriving Repr

/-- Rendering with the error dropped, as in `jsonBytes, _ := json.Marshal(x)`
followed by `string(jsonBytes)`: a failed rendering gives nil bytes. -/
def marshalOrNil (marshal : JsonArg → Option String) (x : JsonArg) : String :=
  match marshal x with
  | some bytes => bytes
  | none => ""

/-! ## Requests -/

/-- Go's `url.URL`, as far as `FromRequest` reads it. -/
structure URL where
  RawQuery : String
  Path : String
  deriving Repr

/-- Go's `http.Request`, as far as `FromRequest` reads it.  `Header` is the
`map[string][]string`; `ctx` is the unexported context field, nil for a request
built without one.  The `URL` pointer is taken to be non-nil, as it is for every
request the HTTP server delivers or `http.NewRequest` builds. -/
structure Request where
  Method : String
  URL : URL
  Header : List (String × List String)
  Host : String
  RemoteAddr : String
  ctx : Option Context
  deriving Repr

/-- The bytes allowed in a header field name (`validHeaderFieldByte`). -/
def validHeaderFieldByte (c : Char) : Bool :=
  c.isAlphanum ||
    ("!#$%&*+-.^_|~".toList.contains c) || c = Char.ofNat 39 || c = Char.ofNat 96

/-- The canonicalisation loop of `textproto.CanonicalMIMEHeaderKey`: the first
letter and every letter after a hyphen in upper case, the others in lower case. -/
def canonLoop : Bool → List Char → List Char
  | _, [] => []
  | upper, c :: cs =>
    let c := if upper then c.toUpper else c.toLower
    c :: canonLoop (c = '-') cs

/-- Go's `textproto.CanonicalMIMEHeaderKey`: a key holding a space or a byte
that is not allowed in a field name is returned unchanged. -/
def canonicalMIMEHeaderKey (key : String) : String :=
  if key.toList.all validHeaderFieldByte then String.mk (canonLoop true key.toList) else key

/-- Go's `http.Header.Get`: the first value under the canonical key, or `""`. -/
def headerGet (hd : List (String × List String)) (key : String) : String :=
  match hd.lookup (canonicalMIMEHeaderKey key) with
  | some (v :: _) => v
  | _ => ""

/-- Go's `(*http.Request).UserAgent`. -/
def Request.UserAgent (r : Request) : String := headerGet r.Header "User-Agent"

/-- A run-time panic. -/
inductive Panic where
  | nilDereference
  deriving DecidableEq, Repr

/-- Go's `(*http.Request).Context` on a possibly nil receiver: reading `r.ctx`
through a nil pointer panics. -/
def requestContext (r : Option Request) : Except Panic Context :=
  match r with
  | none => .error .nilDereference
  | some r =>
    match r.ctx with
    | some c => .ok c
    | none => .ok Context.background

/-- Go's `(*http.Request).WithContext` on a possibly nil receiver: the shallow
copy `*r2 = *r` through a nil pointer panics. -/
def requestWithContext (r : Option Request) (ctx : Context) : Except Panic Request :=
  match r with
  | none => .error .nilDereference
  | some r => .ok { r with ctx := some ctx }

def letters : List Char :=
  "0123456789abcdefghijklmnopqrstuvwxyzABCDEFGHIJKLMNOPQRSTUVWXYZ".toList

/-- The function `randSeq` of both files; `rnd i` is the raw output of the random source at
the `i`-th call of `rand.Intn(len(letters))`. -/
def randSeq (rnd : Nat → Nat) (n : Nat) : String :=
  String.mk ((List.range n).map (fun i => letters.getD (rnd i % letters.length) '0'))

/-- The client-IP value of `FromRequest` (both files):
`requestIp := X-Forwarded-For; if requestIp != "" && connectingIp != ""
{ requestIp += "," }; requestIp += connectingIp`. -/
def clientIp (r : Request) : String :=
  let requestIp := headerGet r.Header "X-Forwarded-For"
  let connectingIp := headerGet r.Header "CF-Connecting-IP"
  let requestIp := if requestIp ≠ "" ∧ connectingIp ≠ "" then requestIp ++ "," else requestIp
  requestIp ++ connectingIp

/-- The nine `AppendCtx` calls inside the `r != nil` guard of `FromRequest`
(both files), in order. -/
def appendRequestFields (grow : Nat → Nat) (h : Heap) (ctx : Context) (r : Request) :
    Heap × Context :=
  let c := AppendCtx grow h (some ctx) (slogString "query" r.URL.RawQuery)
  let c := AppendCtx grow c.1 (some c.2) (slogString "user-agent" r.UserAgent)
  let c := AppendCtx grow c.1 (some c.2) (slogString "ip" r.RemoteAddr)
  let c := AppendCtx grow c.1 (some c.2) (slogString "host" r.Host)
  let c := AppendCtx grow c.1 (some c.2) (slogString "method" r.Method)
  let c := AppendCtx grow c.1 (some c.2) (slogString "x-forwarded-for" (clientIp r))
  let c := AppendCtx grow c.1 (some c.2) (slogString "country" (headerGet r.Header "CF-IPCountry"))
  let c := AppendCtx grow c.1 (some c.2)
    (slogString "content-type" (headerGet r.Header "content-type"))
  AppendCtx grow c.1 (some c.2) (slogString "path" r.URL.Path)

/-! ## `src/log.go` -/

namespace Root

def messageKey : String := "msg"

def levelKey : String := "level"

def timestampKey : String := "timestamp"

/-- The method `Handler.Handle` of `src/log.go`.  `getenv` is `os.Getenv`, `marshal` is
`json.Marshal` (`none` when it fails), `now` the clock reading, `hp` the heap. -/
def Handle (getenv : String → String) (marshal : JsonArg → Option String) (now : Time)
    (hp : Heap) (_h : Handler) (ctx : Context) (record : Record) : HandleResult :=
  let fields : Fields := []
  let fields := fields.set messageKey (.str record.Message)
  let fields := fields.set levelKey (.str (levelString record.Level))
  let fields := fields.set timestampKey (.int64 (unixMicro record.Time))
  let fields := fields.setAll record.attrs
  let fields := match ctx.attrs with
    | some attrs => fields.setAll (attrs.read hp)
    | none => fields
  let fields := match fields.get "startedAt" with
    | some (.time startedAt) => fields.set "duration" (.int64 (since now startedAt))
    | _ => fields
  let jsonBytes := marshalOrNil marshal (.object fields)
  let body := marshalOrNil marshal (.array [fields])
  if getenv "AXIOM_API_KEY" = "" then
    ⟨none, fields,
      [.sinkPrintln jsonBytes, .stdLog "no axiom api key found, not sending logs"]⟩
  else
    ⟨none, fields, [.sinkPrintln jsonBytes, .sendLogOverHTTP body]⟩

/-- The function `FromRequest` of `src/log.go`; a nil request is `none`.  Gives the heap, the
returned request and the returned context. -/
def FromRequest (grow : Nat → Nat) (getenv : String → String) (rnd : Nat → Nat) (now : Time)
    (h : Heap) (r : Option Request) : Heap × Option Request × Context :=
  let id := randSeq rnd 24
  let c := AppendCtx grow h (some Context.background) (slogString "id" id)
  let c := AppendCtx grow c.1 (some c.2) (slogString "service" (getenv "SERVICE_NAME"))
  let c := AppendCtx grow c.1 (some c.2) (slogTime "startedAt" now)
  match r with
  | some r =>
    let c := appendRequestFields grow c.1 c.2 r
    (c.1, some { r with ctx := some c.2 }, c.2)
  | none => (c.1, none, c.2)

end Root

/-! ## `src/pkg/logthis.go` -/

namespace Pkg

def MESSAGE_KEY : String := "msg"

def LEVEL_KEY : String := "level"

def TIMESTAMP_KEY : String := "timestamp"

/-- The method `Handler.Handle` of `src/pkg/logthis.go`.  `axiomApiKey` is the package
variable of that name, `marshal` is `json.Marshal` (`none` when it fails), `now`
the clock reading, `hp` the heap. -/
def Handle (axiomApiKey : String) (marshal : JsonArg → Option String) (now : Time)
    (hp : Heap) (h : Handler) (ctx : Context) (record : Record) : HandleResult :=
  let fields : Fields := []
  let fields := fields.set MESSAGE_KEY (.str record.Message)
  let fields := fields.set LEVEL_KEY (.str (levelString record.Level))
  let fields := fields.set TIMESTAMP_KEY (.time record.Time)
  let fields := fields.setAll record.attrs
  let fields := match ctx.attrs with
    | some attrs => fields.setAll (attrs.read hp)
    | none => fields
  let duration := since now h.startedAt
  let fields := fields.set "duration" (.int64 duration)
  let jsonBytes := marshalOrNil marshal (.object fields)
  let body := marshalOrNil marshal (.array [fields])
  if axiomApiKey ≠ "" then
    ⟨none, fields, [.sinkPrintln jsonBytes, .sendLogOverHTTP body]⟩
  else
    ⟨none, fields, [.sinkPrintln jsonBytes]⟩

/-- The function `FromRequest` of `src/pkg/logthis.go`; a nil request is `none`, and
`serviceName` is the package variable of that name.  Gives the heap and the
returned request (whose context carries the chain), or the panic. -/
def FromRequest (grow : Nat → Nat) (serviceName : String) (rnd : Nat → Nat)
    (h : Heap) (r : Option Request) : Except Panic (Heap × Request) :=
  let id := randSeq rnd 24
  match requestContext r with
  | .error e => .error e
  | .ok rctx =>
    let c := AppendCtx grow h (some rctx) (slogString "id" id)
    let c := match r with
      | some r => appendRequestFields grow c.1 c.2 r
      | none => c
    let c := AppendCtx grow c.1 (some c.2) (slogString "service" serviceName)
    match requestWithContext r c.2 with
    | .error e => .error e
    | .ok r => .ok (c.1, r)

/-! ### The shipper: `sendLogOverHTTP`, `maxQueue`, `wg` -/

/-- A buffered Go channel of `int`. -/
structure Chan where
  cap : Nat
  buf : List Int
  deriving DecidableEq, Repr

/-- The channel send `c <- v`: `none` when the buffer is full (the sender blocks). -/
def Chan.send (c : Chan) (v : Int) : Option Chan :=
  if c.buf.length < c.cap then some { c with buf := c.buf ++ [v] } else none

/-- The channel receive `<-c`: `none` when the buffer is empty (the receiver blocks). -/
def Chan.recv (c : Chan) : Option (Int × Chan) :=
  match c.buf with
  | [] => none
  | v :: rest => some (v, { c with buf := rest })

/-- What `client.Do(req)` gives back: a response with its status code, or an
error (transport failure, timeout, cancellation). -/
inductive Outcome where
  | response (StatusCode : Int)
  | error (msg : String)
  deriving DecidableEq, Repr

/-- Where a background send (the goroutine of `sendLogOverHTTP`) stands. -/
inductive Phase where
  -- started; `client.Do(req)` has not returned
  | inDo (body : String)
  -- `client.Do` has returned and the diagnostics are printed; next is `<-maxQueue`
  | afterDo
  -- `<-maxQueue` done; next is the deferred `wg.Done()`
  | released
  -- the goroutine has ended
  | finished
  deriving DecidableEq, Repr

/-- The package state of the shipper. -/
structure Shipper where
  maxQueue : Chan
  -- the counter of the `sync.WaitGroup`
  wg : Int
  -- the background sends, in the order they were started
  sends : List Phase
  -- what the sends printed with `fmt.Println`
  diag : List String
  -- a `wg.Done()` drove the counter negative
  panicked : Bool
  deriving DecidableEq, Repr

/-- The shipper state `NewHandler` sets up: `wg = &sync.WaitGroup{}` and
`maxQueue = make(chan int, 5)`. -/
def NewHandler : Shipper :=
  { maxQueue := ⟨5, []⟩, wg := 0, sends := [], diag := [], panicked := false }

/-- The `if err != nil ... else if rs.StatusCode > 399 ...` of the goroutine. -/
def report (o : Outcome) : List String :=
  match o with
  | .error msg => ["error sending logs over http " ++ msg]
  | .response code =>
    if code > 399 then ["axiom returned non 200 status " ++ toString code] else []

/-- The steps of the shipper. -/
inductive Action where
  -- a call `sendLogOverHTTP(ctx, &body)` up to and including the `go` statement
  | submit (body : String)
  -- `client.Do` of send `i` returns with the outcome, and the report is printed
  | doReturn (i : Nat) (o : Outcome)
  -- send `i` executes `<-maxQueue`
  | recv (i : Nat)
  -- send `i` executes its deferred `wg.Done()`
  | done (i : Nat)
  deriving DecidableEq, Repr

/-- One step; `none` when the step cannot be taken in this state (a full or
empty channel blocks it, or send `i` is not at that point). -/
def step (s : Shipper) : Action → Option Shipper
  | .submit body =>
    match s.maxQueue.send 1 with
    | none => none
    | some q => some { s with maxQueue := q, wg := s.wg + 1, sends := s.sends ++ [.inDo body] }
  | .doReturn i o =>
    match s.sends[i]? with
    | some (.inDo _) => some { s with sends := s.sends.set i .afterDo, diag := s.diag ++ report o }
    | _ => none
  | .recv i =>
    match s.sends[i]? with
    | some .afterDo =>
      match s.maxQueue.recv with
      | none => none
      | some (_, q) => some { s with maxQueue := q, sends := s.sends.set i .released }
    | _ => none
  | .done i =>
    match s.sends[i]? with
    | some .released =>
      some { s with wg := s.wg - 1, sends := s.sends.set i .finished,
                    panicked := s.panicked || decide (s.wg - 1 < 0) }
    | _ => none

/-- A run of steps from a state; `none` as soon as one cannot be taken. -/
def run : Shipper → List Action → Option Shipper
  | s, [] => some s
  | s, a :: as =>
    match step s a with
    | none => none
    | some s1 => run s1 as

/-- Send `i` runs from the return of `client.Do` to its end. -/
def complete (s : Shipper) (i : Nat) (o : Outcome) : Option Shipper :=
  run s [.doReturn i o, .recv i, .done i]

/-- A send whose `client.Do` is in flight. -/
def Phase.inFlight : Phase → Bool
  | .inDo _ => true
  | _ => false

/-- A send that holds a slot of `maxQueue`: started and not yet past `<-maxQueue`. -/
def Phase.holdsSlot : Phase → Bool
  | .inDo _ => true
  | .afterDo => true
  | _ => false

/-- A send that has not executed `wg.Done()`. -/
def Phase.pending : Phase → Bool
  | .finished => false
  | _ => true

/-- The number of sends simultaneously outstanding (in `client.Do`). -/
def outstanding (s : Shipper) : Nat := s.sends.countP Phase.inFlight

/-- The number of sends holding a slot. -/
def holding (s : Shipper) : Nat := s.sends.countP Phase.holdsSlot

/-- The number of sends that have not reported to the tracker. -/
def tracked (s : Shipper) : Nat := s.sends.countP Phase.pending

/-- The invariant of the shipper: the tokens in `maxQueue` are the sends holding
a slot, the counter of `wg` is the number of sends still to report, and the
channel keeps capacity 5. -/
def Inv (s : Shipper) : Prop :=
  s.maxQueue.cap = 5 ∧ s.maxQueue.buf.length = holding s ∧ s.wg = (tracked s : Int) ∧
    s.maxQueue.buf.length ≤ 5 ∧ s.panicked = false

end Pkg

/-! ## What `FromRequest` is compared with -/

/-- The nine request fields in the order the guarded block of `FromRequest`
appends them. -/
def requestAttrs (r : Request) : List Attr :=
  [slogString "query" r.URL.RawQuery,
   slogString "user-agent" (headerGet r.Header "User-Agent"),
   slogString "ip" r.RemoteAddr,
   slogString "host" r.Host,
   slogString "method" r.Method,
   slogString "x-forwarded-for" (clientIp r),
   slogString "country" (headerGet r.Header "CF-IPCountry"),
   slogString "content-type" (headerGet r.Header "content-type"),
   slogString "path" r.URL.Path]

/-- The chain a request arrives with, if any. -/
def Request.chain (r : Request) : Option Slice :=
  match r.ctx with
  | some c => c.attrs
  | none => none

/-- A request with a user agent and a forwarded-for chain, and no other header
that `FromRequest` reads; it arrives without a context. -/
def sampleRequest : Request :=
  { Method := "GET", URL := ⟨"a=1", "/items"⟩,
    Header := [("User-Agent", ["curl/8"]), ("X-Forwarded-For", ["10.0.0.1"])],
    Host := "example.org", RemoteAddr := "192.0.2.7:4711", ctx := none }

/-- The same request arriving through a trusted proxy that also supplies the
connecting IP. -/
def proxiedRequest : Request :=
  { sampleRequest with
    Header := [("X-Forwarded-For", ["10.0.0.1"]), ("Cf-Connecting-Ip", ["198.51.100.9"])] }

/-- The keys of the chain `FromRequest` of `src/pkg/logthis.go` gives a request
(empty on panic). -/
def pkgKeys (r : Option Request) : List String :=
  match Pkg.FromRequest goGrow "svc" (fun _ => 0) [] r with
  | .ok (h, r2) => (entriesOpt h r2.ctx).map (fun a => a.Key)
  | .error _ => []

/-! ## Concrete inputs used below -/

/-- A heap holding one chain, `startedAt = 100ns`, and the context carrying it. -/
def startedAtHeap : Heap := [[slogTime "startedAt" 100]]

def startedAtCtx : Context :=
  Context.withValue Context.background slogFields (.attrs ⟨0, 1, 1⟩)

/-- The context carrying a chain of two entries in array 0. -/
def twoEntryCtx : Context :=
  Context.withValue Context.background slogFields (.attrs ⟨0, 2, 2⟩)

/-- An event `hello` at level Info with no attributes. -/
def helloRecord : Record := ⟨"hello", 0, 500, []⟩

/-- A rendering that always fails. -/
def failingMarshal : JsonArg → Option String := fun _ => none

/-- The instant 1700-01-01T00:00:00Z. -/
def year1700 : Time := -8520336000 * 10 ^ 9

/-- The instant 2026-11-01T00:00:00Z. -/
def nov2026 : Time := 1793491200 * 10 ^ 9

/-- A heap holding one chain, `startedAt = 1700-01-01`. -/
def oldStartHeap : Heap := [[slogTime "startedAt" year1700]]

/-! ## Concrete runs of the shipper -/

namespace Pkg

/-- Five submissions and nothing else: the gate is full. -/
def fiveSubmits : List Action :=
  [.submit "b0", .submit "b1", .submit "b2", .submit "b3", .submit "b4"]

/-- The state after `fiveSubmits`. -/
def gateFull : Shipper :=
  { maxQueue := ⟨5, [1, 1, 1, 1, 1]⟩, wg := 5,
    sends := [.inDo "b0", .inDo "b1", .inDo "b2", .inDo "b3", .inDo "b4"],
    diag := [], panicked := false }

/-- Ten submissions (2K): five fill the gate, and each further one follows the
completion of an earlier send, with a success, a transport error and a failure
status among the outcomes. -/
def tenSubmits : List Action :=
  fiveSubmits ++
  [.doReturn 0 (.response 200), .recv 0, .done 0, .submit "b5",
   .doReturn 1 (.error "timeout"), .recv 1, .done 1, .submit "b6",
   .doReturn 2 (.response 503), .recv 2, .done 2, .submit "b7",
   .doReturn 3 (.response 200), .recv 3, .done 3, .submit "b8",
   .doReturn 4 (.response 200), .recv 4, .done 4, .submit "b9"]

/-- The state after `tenSubmits`. -/
def afterTen : Shipper :=
  { maxQueue := ⟨5, [1, 1, 1, 1, 1]⟩, wg := 5,
    sends := [.finished, .finished, .finished, .finished, .finished,
              .inDo "b5", .inDo "b6", .inDo "b7", .inDo "b8", .inDo "b9"],
    diag := ["error sending logs over http timeout", "axiom returned non 200 status 503"],
    panicked := false }

/-- Three submissions, each completed: by a success, by a failure status and by
a transport error. -/
def threeCompleted : List Action :=
  [.submit "b0", .submit "b1", .submit "b2",
   .doReturn 0 (.response 200), .recv 0, .done 0,
   .doReturn 1 (.response 503), .recv 1, .done 1,
   .doReturn 2 (.error "timeout"), .recv 2, .done 2]

/-- The state after `threeCompleted`. -/
def drained : Shipper :=
  { maxQueue := ⟨5, []⟩, wg := 0,
    sends := [.finished, .finished, .finished],
    diag := ["axiom returned non 200 status 503", "error sending logs over http timeout"],
    panicked := false }

end Pkg

/-! ## Re-reading a chain -/

/-- A stand-in for `json.Marshal` that always succeeds: an object is rendered
as `obj(` its keys `)`, an array as `arr(` its objects `)`. -/
def keysMarshal : JsonArg → Option String
  | .object fields => some ("obj(" ++ ",".intercalate (fields.map (fun e => e.1)) ++ ")")
  | .array elems =>
    some ("arr(" ++ ",".intercalate
      (elems.map (fun fields => "obj(" ++ ",".intercalate (fields.map (fun e => e.1)) ++ ")"))
      ++ ")")

/-- A heap holding the chain `id = abc123`. -/
def idHeap : Heap := [[slogString "id" "abc123"]]

/-- An environment in which only the API key is set. -/
def keyEnv : String → String := fun name => if name = "AXIOM_API_KEY" then "secret" else ""

/-! ## Basic facts about `append` -/

theorem Heap.array_set_same (h : Heap) (p : Nat) (arr : List Attr) (hp : p < h.length) :
    Heap.array (h.set p arr) p = arr := by
  simp [Heap.array, List.getD, hp]

theorem Heap.array_append_new (h : Heap) (arr : List Attr) :
    Heap.array (h ++ [arr]) h.length = arr := by
  simp [Heap.array, List.getD]

theorem Heap.array_append_old (h : Heap) (arr : List Attr) (p : Nat) (hp : p < h.length) :
    Heap.array (h ++ [arr]) p = Heap.array h p := by
  simp [Heap.array, List.getD, List.getElem?_append_left hp]

theorem Heap.array_length_pos (h : Heap) (p : Nat) (hp : 0 < (Heap.array h p).length) :
    p < h.length := by
  by_contra hn
  have : h[p]? = none := List.getElem?_eq_none (Nat.le_of_not_lt hn)
  simp [Heap.array, List.getD, this] at hp

/-- What `append` returns reads as the old elements followed by the new one. -/
theorem goAppend_read (grow : Nat → Nat) (h : Heap) (s : Slice) (a : Attr)
    (hv : s.valid h) :
    (goAppend grow h s a).2.read (goAppend grow h s a).1 = s.read h ++ [a] := by
  obtain ⟨h1, h2⟩ := hv
  unfold goAppend
  by_cases hlt : s.len < s.cap
  · have hlen : s.len < (Heap.array h s.ptr).length := Nat.lt_of_lt_of_le hlt h2
    have hp : s.ptr < h.length := Heap.array_length_pos h s.ptr (Nat.lt_of_le_of_lt (Nat.zero_le _) hlen)
    simp only [hlt, if_true, Slice.read]
    rw [Heap.array_set_same h _ _ hp]
    rw [List.take_succ, List.set_take,
      List.set_eq_of_length_le (by simp), List.getElem?_set_self hlen]
    rfl
  · simp only [hlt, if_false, Slice.read]
    rw [Heap.array_append_new]
    have : (List.take s.len (Heap.array h s.ptr)).length = s.len := by
      simp; omega
    rw [List.append_assoc, List.take_append_eq_append_take]
    simp [this]

/-- What `append` returns is valid in the heap it returns. -/
theorem goAppend_valid (grow : Nat → Nat) (h : Heap) (s : Slice) (a : Attr)
    (hv : s.valid h) :
    (goAppend grow h s a).2.valid (goAppend grow h s a).1 := by
  obtain ⟨h1, h2⟩ := hv
  unfold goAppend
  by_cases hlt : s.len < s.cap
  · have hlen : s.len < (Heap.array h s.ptr).length := Nat.lt_of_lt_of_le hlt h2
    have hp : s.ptr < h.length := Heap.array_length_pos h s.ptr (Nat.lt_of_le_of_lt (Nat.zero_le _) hlen)
    simp only [hlt, if_true, Slice.valid]
    rw [Heap.array_set_same h _ _ hp]
    simp; omega
  · simp only [hlt, if_false, Slice.valid]
    rw [Heap.array_append_new]
    simp [Slice.read]
    omega

theorem Context.attrs_withValue (p : Context) (v : CtxVal) :
    (Context.withValue p slogFields v).attrs =
      match v with
      | .attrs s => some s
      | .other _ => none := by
  cases v <;> simp [Context.attrs, Context.Value]

/-- The chain of `AppendCtx`'s result is the parent's chain plus the attribute. -/
theorem AppendCtx_entries (grow : Nat → Nat) (h : Heap) (parent : Option Context) (a : Attr)
    (hv : validOpt h parent) :
    entries (AppendCtx grow h parent a).1 (AppendCtx grow h parent a).2
      = entriesOpt h parent ++ [a] := by
  have key : ∀ p : Context, p.valid h →
      entries (AppendCtx grow h (some p) a).1 (AppendCtx grow h (some p) a).2
        = entries h p ++ [a] ∧
      entries (AppendCtx grow h none a).1 (AppendCtx grow h none a).2 = [a] := by
    intro p hp
    constructor
    · unfold AppendCtx
      simp only
      unfold Context.valid at hp
      cases hs : p.attrs with
      | some s =>
        rw [hs] at hp
        simp only [entries, Context.attrs_withValue, hs]
        exact goAppend_read grow h s a hp
      | none =>
        simp only [entries, Context.attrs_withValue, hs]
        simp [goAppend, Slice.read, Heap.array_append_new]
    · simp [AppendCtx, Context.attrs, Context.Value, entries, goAppend, Slice.read,
        Heap.array_append_new]
  cases parent with
  | none => simpa [entriesOpt] using (key Context.background (by simp [Context.valid, Context.attrs, Context.Value])).2
  | some p => simpa [entriesOpt] using (key p hv).1

/-- The context `AppendCtx` returns is valid in the heap it returns. -/
theorem AppendCtx_valid (grow : Nat → Nat) (h : Heap) (parent : Option Context) (a : Attr)
    (hv : validOpt h parent) :
    (AppendCtx grow h parent a).2.valid (AppendCtx grow h parent a).1 := by
  have fresh : (goAppend grow h ⟨h.length, 0, 0⟩ a).2.valid (goAppend grow h ⟨h.length, 0, 0⟩ a).1 := by
    simp [goAppend, Slice.valid, Slice.read, Heap.array_append_new]
  have key : ∀ p : Context, p.valid h →
      (AppendCtx grow h (some p) a).2.valid (AppendCtx grow h (some p) a).1 := by
    intro p hp
    unfold AppendCtx
    simp only
    unfold Context.valid at hp
    cases hs : p.attrs with
    | some s =>
      rw [hs] at hp
      simp only [Context.valid, Context.attrs_withValue]
      exact goAppend_valid grow h s a hp
    | none =>
      simp only [Context.valid, Context.attrs_withValue]
      exact fresh
  cases parent with
  | none =>
    simp only [AppendCtx, Context.attrs, Context.Value, Context.valid]
    simp only [if_true]
    exact fresh
  | some p => exact key p hv

/-- A chain built by successive calls lists the parent's entries and then the
attributes in insertion order. -/
theorem buildChain_entries (grow : Nat → Nat) (as : List Attr) :
    ∀ (h : Heap) (parent : Option Context), validOpt h parent →
      entriesOpt (buildChain grow h parent as).1 (buildChain grow h parent as).2
        = entriesOpt h parent ++ as ∧
      validOpt (buildChain grow h parent as).1 (buildChain grow h parent as).2 := by
  induction as with
  | nil => intro h parent hv; simpa [buildChain] using hv
  | cons a as ih =>
    intro h parent hv
    have h1 := AppendCtx_entries grow h parent a hv
    have h2 := AppendCtx_valid grow h parent a hv
    have := ih (AppendCtx grow h parent a).1 (some (AppendCtx grow h parent a).2) h2
    simp only [buildChain]
    refine ⟨?_, this.2⟩
    rw [this.1]
    simp [entriesOpt, h1]

/-- A slice is still read the same after a new array is allocated. -/
theorem Slice.read_alloc (h : Heap) (s : Slice) (arr : List Attr)
    (hs : s.len = 0 ∨ s.ptr < h.length) :
    s.read (h ++ [arr]) = s.read h := by
  rcases hs with h0 | hp
  · simp [Slice.read, h0]
  · simp [Slice.read, Heap.array_append_old h arr s.ptr hp]

theorem Slice.valid_ptr (h : Heap) (s : Slice) (hv : s.valid h) :
    s.len = 0 ∨ s.ptr < h.length := by
  by_cases h0 : s.len = 0
  · exact Or.inl h0
  · right
    apply Heap.array_length_pos
    have := hv.1; have := hv.2
    omega

/-- An in-place append leaves what the parent slice shows unchanged. -/
theorem goAppend_inplace_read (grow : Nat → Nat) (h : Heap) (s : Slice) (a : Attr)
    (hv : s.valid h) (hlt : s.len < s.cap) :
    s.read (goAppend grow h s a).1 = s.read h ∧ s.valid (goAppend grow h s a).1 ∧
      (goAppend grow h s a).2 = { s with len := s.len + 1 } := by
  obtain ⟨h1, h2⟩ := hv
  have hlen : s.len < (Heap.array h s.ptr).length := Nat.lt_of_lt_of_le hlt h2
  have hp : s.ptr < h.length :=
    Heap.array_length_pos h s.ptr (Nat.lt_of_le_of_lt (Nat.zero_le _) hlen)
  unfold goAppend
  simp only [hlt, if_true, Slice.read, Slice.valid]
  rw [Heap.array_set_same h _ _ hp]
  refine ⟨?_, ⟨h1, by simpa using h2⟩, trivial⟩
  rw [List.set_take, List.set_eq_of_length_le (by simp)]

/-- When the parent's slice has spare capacity, the two derivations share its
backing array: both children, read after the second derivation, show the
parent's entries followed by the SECOND attribute. -/
theorem deriveTwo_alias (grow : Nat → Nat) (h : Heap) (p : Context) (s : Slice) (a1 a2 : Attr)
    (hs : p.attrs = some s) (hv : s.valid h) (hlt : s.len < s.cap) :
    entries (deriveTwo grow h p a1 a2).1 (deriveTwo grow h p a1 a2).2.1 = entries h p ++ [a2] ∧
    entries (deriveTwo grow h p a1 a2).1 (deriveTwo grow h p a1 a2).2.2 = entries h p ++ [a2] ∧
    entries (deriveTwo grow h p a1 a2).1 p = entries h p := by
  obtain ⟨r1, v1, e1⟩ := goAppend_inplace_read grow h s a1 hv hlt
  obtain ⟨r2, _, e2⟩ := goAppend_inplace_read grow (goAppend grow h s a1).1 s a2 v1 hlt
  have hb := goAppend_read grow (goAppend grow h s a1).1 s a2 v1
  simp only [deriveTwo, AppendCtx, hs, entries, Context.attrs_withValue]
  rw [e1, ← e2]
  exact ⟨by rw [hb, r1], by rw [hb, r1], by rw [r2, r1]⟩

/-- When the parent carries no chain, or a chain whose slice is full, the two
derivations are isolated. -/
theorem deriveTwo_isolated (grow : Nat → Nat) (h : Heap) (p : Context) (a1 a2 : Attr)
    (hv : p.valid h) (hfull : ∀ s, p.attrs = some s → s.len = s.cap) :
    entries (deriveTwo grow h p a1 a2).1 (deriveTwo grow h p a1 a2).2.1 = entries h p ++ [a1] ∧
    entries (deriveTwo grow h p a1 a2).1 (deriveTwo grow h p a1 a2).2.2 = entries h p ++ [a2] ∧
    entries (deriveTwo grow h p a1 a2).1 p = entries h p := by
  have full : ∀ (g : Heap) (s : Slice) (a : Attr), s.len = s.cap →
      goAppend grow g s a = (g ++ [s.read g ++ [a] ++
        List.replicate (max (s.len + 1) (grow s.cap) - (s.len + 1)) Attr.zero],
        { ptr := g.length, len := s.len + 1, cap := max (s.len + 1) (grow s.cap) }) := by
    intro g s a he
    simp [goAppend, he]
  have fresh : ∀ (g : Heap) (arr : List Attr) (n c : Nat),
      Slice.read (g ++ [arr]) ⟨g.length, n, c⟩ = arr.take n := by
    intro g arr n c
    simp [Slice.read, Heap.array_append_new]
  have fresh2 : ∀ (g : Heap) (arr arr2 : List Attr) (n c : Nat),
      Slice.read (g ++ [arr] ++ [arr2]) ⟨g.length, n, c⟩ = arr.take n := by
    intro g arr arr2 n c
    rw [Slice.read_alloc _ _ _ (Or.inr (by simp))]
    exact fresh g arr n c
  cases hs : p.attrs with
  | none =>
    simp only [deriveTwo, AppendCtx, hs, entries, Context.attrs_withValue]
    rw [full h ⟨h.length, 0, 0⟩ a1 rfl]
    simp only
    rw [full _ ⟨_, 0, 0⟩ a2 rfl]
    simp only
    refine ⟨?_, ?_, trivial⟩
    · rw [fresh2]; simp [Slice.read]
    · have := fresh (h ++ [Slice.read h ⟨h.length, 0, 0⟩ ++ [a1] ++
          List.replicate (max (0 + 1) (grow 0) - (0 + 1)) Attr.zero])
      rw [this]; simp [Slice.read]
  | some s =>
    have he := hfull s hs
    have hvs : s.valid h := by simpa [Context.valid, hs] using hv
    have hptr := Slice.valid_ptr h s hvs
    simp only [deriveTwo, AppendCtx, hs, entries, Context.attrs_withValue]
    rw [full h s a1 he]
    simp only
    rw [full _ s a2 he]
    simp only
    have hr1 : s.read (h ++ [s.read h ++ [a1] ++
        List.replicate (max (s.len + 1) (grow s.cap) - (s.len + 1)) Attr.zero]) = s.read h :=
      Slice.read_alloc h s _ hptr
    have hlen : (s.read h).length = s.len := by
      have := hvs.1; have := hvs.2
      simp [Slice.read]; omega
    refine ⟨?_, ?_, ?_⟩
    · rw [fresh2, List.append_assoc, List.take_append_eq_append_take]
      simp [hlen]
    · rw [fresh, hr1, List.append_assoc, List.take_append_eq_append_take]
      simp [hlen]
    · have hptr2 : s.len = 0 ∨ s.ptr < (h ++ [s.read h ++ [a1] ++
          List.replicate (max (s.len + 1) (grow s.cap) - (s.len + 1)) Attr.zero]).length := by
        rcases hptr with h0 | hp
        · exact Or.inl h0
        · exact Or.inr (by simp; omega)
      rw [Slice.read_alloc _ s _ hptr2, hr1]

/-- C1 (the code at a concrete input). From the parent chain `id, service,
startedAt` (length 3 in a backing array of capacity 4), deriving a child with
`user=alice` and then a sibling with `job=42` leaves the FIRST child reading
`id, service, startedAt, job`: the sibling's key shows through it and its own
key `user` is gone.  The parent and the second child read as expected. -/
theorem C1_siblings_share_backing_array :
    entries siblingsOfThree.1 siblingsOfThree.2.1
      = [slogString "id" "abc", slogString "service" "svc", slogTime "startedAt" 0,
         slogString "job" "42"] ∧
    entries siblingsOfThree.1 siblingsOfThree.2.2
      = [slogString "id" "abc", slogString "service" "svc", slogTime "startedAt" 0,
         slogString "job" "42"] ∧
    entriesOpt siblingsOfThree.1 chainOfThree.2
      = [slogString "id" "abc", slogString "service" "svc", slogTime "startedAt" 0] ∧
    entriesOpt chainOfThree.1 chainOfThree.2
      = [slogString "id" "abc", slogString "service" "svc", slogTime "startedAt" 0] := by
  decide

/-! ## The field map -/

theorem Fields.get_set_same (m : Fields) (k : String) (v : GoAny) :
    (m.set k v).get k = some v := by
  simp [Fields.set, Fields.get]

theorem Fields.get_filter_ne (m : Fields) (k k2 : String) (hne : k2 ≠ k) :
    Fields.get (m.filter (fun e => decide (e.1 ≠ k))) k2 = Fields.get m k2 := by
  induction m with
  | nil => rfl
  | cons e m ih =>
    unfold Fields.get at ih ⊢
    by_cases h1 : e.1 = k
    · have h2 : ¬ e.1 = k2 := fun h => hne (h ▸ h1)
      rw [List.filter_cons_of_neg (by simpa using h1),
        List.find?_cons_of_neg _ (by simpa using h2)]
      exact ih
    · rw [List.filter_cons_of_pos (by simpa using h1)]
      by_cases h2 : e.1 = k2
      · rw [List.find?_cons_of_pos _ (by simpa using h2),
          List.find?_cons_of_pos _ (by simpa using h2)]
      · rw [List.find?_cons_of_neg _ (by simpa using h2),
          List.find?_cons_of_neg _ (by simpa using h2)]
        exact ih

theorem Fields.get_set_ne (m : Fields) (k k2 : String) (v : GoAny) (hne : k2 ≠ k) :
    (m.set k v).get k2 = m.get k2 := by
  have h := Fields.get_filter_ne m k k2 hne
  unfold Fields.get at h ⊢
  unfold Fields.set
  have hk : ¬ k = k2 := fun e => hne e.symm
  rw [List.find?_cons_of_neg _ (by simpa using hk)]
  exact h

theorem lastValue_append_singleton (es : List Attr) (e : Attr) (k : String) :
    lastValue (es ++ [e]) k = if e.Key = k then some e.Value else lastValue es k := by
  unfold lastValue
  by_cases h : e.Key = k
  · simp [List.filter_append, List.filter, h]
  · simp [List.filter_append, List.filter, h]

theorem Fields.setAll_append_singleton (m : Fields) (es : List Attr) (e : Attr) :
    m.setAll (es ++ [e]) = (m.setAll es).set e.Key e.Value.Any := by
  simp [Fields.setAll, List.foldl_append]

/-- After the loop over a chain, a key holds the value of the last entry with
that key, or what it held before when no entry has it. -/
theorem Fields.get_setAll (m : Fields) (es : List Attr) (k : String) :
    (m.setAll es).get k =
      match lastValue es k with
      | some v => some v.Any
      | none => m.get k := by
  induction es using List.reverseRecOn with
  | nil => simp [Fields.setAll, lastValue]
  | append_singleton es e ih =>
    rw [Fields.setAll_append_singleton, lastValue_append_singleton]
    by_cases h : e.Key = k
    · subst h
      simp [Fields.get_set_same]
    · rw [Fields.get_set_ne _ _ _ _ (fun e2 => h e2.symm), ih]
      simp [h]

/-- C3. Field precedence, both files: for every event, chain and key `k` other
than `duration`, when the chain has an entry with key `k` the rendered record
holds at `k` the value of the LAST chain entry with key `k`, whatever the
event's attributes and the built-in fields hold there. -/
theorem C3_chain_entry_overrides (getenv : String → String) (axiomApiKey : String)
    (marshal : JsonArg → Option String) (now : Time) (hp : Heap) (h : Handler)
    (ctx : Context) (record : Record) (k : String) (v : Value)
    (hk : k ≠ "duration") (hv : lastValue (entries hp ctx) k = some v) :
    (Root.Handle getenv marshal now hp h ctx record).fields.get k = some v.Any ∧
    (Pkg.Handle axiomApiKey marshal now hp h ctx record).fields.get k = some v.Any := by
  unfold entries at hv
  cases hs : ctx.attrs with
  | none => simp [hs, lastValue] at hv
  | some s =>
    rw [hs] at hv
    simp only at hv
    constructor
    · have hm : ∀ base : Fields, Fields.get (base.setAll (s.read hp)) k = some v.Any := by
        intro base; rw [Fields.get_setAll, hv]
      unfold Root.Handle
      simp only [hs]
      split <;> split <;> simp only [hm, Fields.get_set_ne _ _ _ _ hk]
    · have hm : ∀ base : Fields, Fields.get (base.setAll (s.read hp)) k = some v.Any := by
        intro base; rw [Fields.get_setAll, hv]
      unfold Pkg.Handle
      simp only [hs]
      split <;> simp only [hm, Fields.get_set_ne _ _ _ _ hk]

/-- Witness of C3: event attribute `status=200`, chain entries `status=404`
then `status=503`: the record holds `status=503` in both files. -/
theorem C3_chain_entry_overrides_witness :
    (Root.Handle (fun _ => "") failingMarshal 1000
        [[⟨"status", .Int64Value 404⟩, ⟨"status", .Int64Value 503⟩]] ⟨0⟩ twoEntryCtx
        ⟨"hello", 0, 500, [⟨"status", .Int64Value 200⟩]⟩).fields.get "status"
      = some (GoAny.int64 503) ∧
    (Pkg.Handle "key" failingMarshal 1000
        [[⟨"status", .Int64Value 404⟩, ⟨"status", .Int64Value 503⟩]] ⟨0⟩ twoEntryCtx
        ⟨"hello", 0, 500, [⟨"status", .Int64Value 200⟩]⟩).fields.get "status"
      = some (GoAny.int64 503) :=
  C3_chain_entry_overrides (fun _ => "") "key" failingMarshal 1000
    [[⟨"status", .Int64Value 404⟩, ⟨"status", .Int64Value 503⟩]] ⟨0⟩ twoEntryCtx
    ⟨"hello", 0, 500, [⟨"status", .Int64Value 200⟩]⟩ "status" (.Int64Value 503)
    (by decide) (by decide)

/-! ## Duration -/

theorem since_exact (now t : Int) (hlo : minDuration ≤ now - t) (hhi : now - t ≤ maxDuration) :
    since now t = now - t := by
  unfold since
  split_ifs with h1 h2
  · omega
  · omega
  · rfl

theorem since_nonneg (now t : Int) (h : t ≤ now) : 0 ≤ since now t := by
  unfold since minDuration maxDuration
  split_ifs with h1 h2
  · norm_num at h1; omega
  · norm_num
  · omega

/-- The duration step of `src/log.go` leaves `startedAt` as merged. -/
theorem Root.Handle_duration (getenv : String → String) (marshal : JsonArg → Option String)
    (now : Time) (hp : Heap) (h : Handler) (ctx : Context) (record : Record) (T0 : Time)
    (hs : (Root.Handle getenv marshal now hp h ctx record).fields.get "startedAt"
      = some (.time T0)) :
    (Root.Handle getenv marshal now hp h ctx record).fields.get "duration"
      = some (.int64 (since now T0)) := by
  have hne : ("startedAt" : String) ≠ "duration" := by decide
  have key : ∀ merged : Fields,
      Fields.get (match merged.get "startedAt" with
        | some (.time startedAt) => merged.set "duration" (.int64 (since now startedAt))
        | _ => merged) "startedAt" = some (.time T0) →
      Fields.get (match merged.get "startedAt" with
        | some (.time startedAt) => merged.set "duration" (.int64 (since now startedAt))
        | _ => merged) "duration" = some (.int64 (since now T0)) := by
    intro merged hm
    split at hm
    · next t ht =>
      rw [Fields.get_set_ne _ _ _ _ hne, ht] at hm
      injection hm with hm
      injection hm with hm
      subst hm
      exact Fields.get_set_same _ _ _
    · next hnot =>
      exact absurd hm (hnot T0)
  unfold Root.Handle at hs ⊢
  split at hs <;> split <;> first | exact key _ hs | simp_all

/-- C4 (as the code has it). In `src/log.go`, whenever the merged mapping holds a
timestamp `startedAt = T0`, the record holds `duration = now - T0` nanoseconds
as long as that fits a signed 64-bit `time.Duration` (it saturates otherwise),
and the duration is non-negative when `T0 ≤ now`.  In `src/pkg/logthis.go` the
duration is always measured from the handler's construction time `h.startedAt`,
whatever `startedAt` entry the mapping holds. -/
theorem C4_duration (getenv : String → String) (axiomApiKey : String)
    (marshal : JsonArg → Option String) (now : Time) (hp : Heap) (h : Handler)
    (ctx : Context) (record : Record) (T0 : Time) :
    ((Root.Handle getenv marshal now hp h ctx record).fields.get "startedAt"
        = some (.time T0) →
      (Root.Handle getenv marshal now hp h ctx record).fields.get "duration"
        = some (.int64 (since now T0)) ∧
      (minDuration ≤ now - T0 → now - T0 ≤ maxDuration → since now T0 = now - T0) ∧
      (T0 ≤ now → 0 ≤ since now T0)) ∧
    (Pkg.Handle axiomApiKey marshal now hp h ctx record).fields.get "duration"
      = some (.int64 (since now h.startedAt)) := by
  refine ⟨fun hs => ⟨Root.Handle_duration getenv marshal now hp h ctx record T0 hs,
    since_exact now T0, since_nonneg now T0⟩, ?_⟩
  unfold Pkg.Handle
  simp only
  split <;> exact Fields.get_set_same _ _ _

/-- Witness of C4: chain entry `startedAt = 100ns`, clock at `1000ns`, handler
built at `0ns`: `src/log.go` renders `duration = 900`, `src/pkg/logthis.go`
renders `duration = 1000`. -/
theorem C4_duration_witness :
    (Root.Handle (fun _ => "") failingMarshal 1000 startedAtHeap ⟨0⟩ startedAtCtx
        helloRecord).fields.get "startedAt" = some (.time 100) ∧
    (Root.Handle (fun _ => "") failingMarshal 1000 startedAtHeap ⟨0⟩ startedAtCtx
        helloRecord).fields.get "duration" = some (.int64 900) ∧
    (Pkg.Handle "" failingMarshal 1000 startedAtHeap ⟨0⟩ startedAtCtx
        helloRecord).fields.get "duration" = some (.int64 1000) := by
  have hs : (Root.Handle (fun _ => "") failingMarshal 1000 startedAtHeap ⟨0⟩ startedAtCtx
      helloRecord).fields.get "startedAt" = some (.time 100) := by decide
  have h := C4_duration (fun _ => "") "" failingMarshal 1000 startedAtHeap ⟨0⟩ startedAtCtx
    helloRecord 100
  refine ⟨hs, ?_, ?_⟩
  · have h1 := (h.1 hs).1
    have h2 := (h.1 hs).2.1 (by decide) (by decide)
    rw [h1, h2]; rfl
  · rw [h.2]; rfl

/-- C4 as stated fails.  In `src/pkg/logthis.go` a `startedAt = 100ns` chain
entry is in the record, yet with the handler built at `0ns` and the clock at
`1000ns` the duration is `1000`, not `1000 - 100`.  In `src/log.go` a
`startedAt` of 1700-01-01 read in November 2026 gives the saturated
`maxDuration`, not `now - T0`. -/
theorem C4_counterexample :
    ((Pkg.Handle "" failingMarshal 1000 startedAtHeap ⟨0⟩ startedAtCtx
        helloRecord).fields.get "startedAt" = some (.time 100) ∧
      (Pkg.Handle "" failingMarshal 1000 startedAtHeap ⟨0⟩ startedAtCtx
        helloRecord).fields.get "duration" = some (.int64 1000) ∧
      (Pkg.Handle "" failingMarshal 1000 startedAtHeap ⟨0⟩ startedAtCtx
        helloRecord).fields.get "duration" ≠ some (.int64 (1000 - 100))) ∧
    ((Root.Handle (fun _ => "") failingMarshal nov2026 oldStartHeap ⟨0⟩ startedAtCtx
        helloRecord).fields.get "startedAt" = some (.time year1700) ∧
      (Root.Handle (fun _ => "") failingMarshal nov2026 oldStartHeap ⟨0⟩ startedAtCtx
        helloRecord).fields.get "duration" = some (.int64 maxDuration) ∧
      (Root.Handle (fun _ => "") failingMarshal nov2026 oldStartHeap ⟨0⟩ startedAtCtx
        helloRecord).fields.get "duration" ≠ some (.int64 (nov2026 - year1700))) := by
  decide

/-! ## Effects of `Handle` -/

/-- C5. Effect contract of `Handle`, both files, for every event, chain and
rendering function (failing ones included): the returned error is nil; exactly
one line is written to the sink, namely what `json.Marshal` gave for the field
map (the empty line when it failed); with a non-empty API key `sendLogOverHTTP`
is called exactly once, on what `json.Marshal` gave for the one-element array
holding that same field map (no bytes when it failed), and with an empty key it
is not called. -/
theorem C5_handle_effects (getenv : String → String) (axiomApiKey : String)
    (marshal : JsonArg → Option String) (now : Time) (hp : Heap) (h : Handler)
    (ctx : Context) (record : Record) :
    ((Root.Handle getenv marshal now hp h ctx record).err = none ∧
      sinkLines (Root.Handle getenv marshal now hp h ctx record).effects
        = [(marshal (.object (Root.Handle getenv marshal now hp h ctx record).fields)).getD ""] ∧
      shipped (Root.Handle getenv marshal now hp h ctx record).effects
        = if getenv "AXIOM_API_KEY" = "" then []
          else [(marshal
            (.array [(Root.Handle getenv marshal now hp h ctx record).fields])).getD ""]) ∧
    ((Pkg.Handle axiomApiKey marshal now hp h ctx record).err = none ∧
      sinkLines (Pkg.Handle axiomApiKey marshal now hp h ctx record).effects
        = [(marshal (.object (Pkg.Handle axiomApiKey marshal now hp h ctx record).fields)).getD ""] ∧
      shipped (Pkg.Handle axiomApiKey marshal now hp h ctx record).effects
        = if axiomApiKey = "" then []
          else [(marshal
            (.array [(Pkg.Handle axiomApiKey marshal now hp h ctx record).fields])).getD ""]) := by
  have hm : ∀ x, marshalOrNil marshal x = (marshal x).getD "" := by
    intro x
    unfold marshalOrNil
    cases marshal x <;> rfl
  constructor
  · unfold Root.Handle
    by_cases hk : getenv "AXIOM_API_KEY" = ""
    · simp [hk, sinkLines, shipped, hm]
    · simp [hk, sinkLines, shipped, hm]
  · unfold Pkg.Handle
    by_cases hk : axiomApiKey = ""
    · simp [hk, sinkLines, shipped, hm]
    · simp [hk, sinkLines, shipped, hm]

/-- C5 at a rendering that succeeds: the event `hello` with the chain
`id = abc123` and an API key set.  Both files write the rendered field map as
their one line and ship the rendered one-element array; `src/log.go` renders the
fields `id, timestamp, level, msg`, `src/pkg/logthis.go` also `duration`. -/
theorem Handle_effects_rendered :
    (Root.Handle keyEnv keysMarshal 1000 idHeap ⟨0⟩ startedAtCtx helloRecord).effects
      = [.sinkPrintln "obj(id,timestamp,level,msg)",
         .sendLogOverHTTP "arr(obj(id,timestamp,level,msg))"] ∧
    (Pkg.Handle "secret" keysMarshal 1000 idHeap ⟨0⟩ startedAtCtx helloRecord).effects
      = [.sinkPrintln "obj(duration,id,timestamp,level,msg)",
         .sendLogOverHTTP "arr(obj(duration,id,timestamp,level,msg))"] ∧
    (Root.Handle (fun _ => "") keysMarshal 1000 idHeap ⟨0⟩ startedAtCtx helloRecord).effects
      = [.sinkPrintln "obj(id,timestamp,level,msg)",
         .stdLog "no axiom api key found, not sending logs"] ∧
    (Pkg.Handle "" keysMarshal 1000 idHeap ⟨0⟩ startedAtCtx helloRecord).effects
      = [.sinkPrintln "obj(duration,id,timestamp,level,msg)"] ∧
    (Pkg.Handle "secret" failingMarshal 1000 idHeap ⟨0⟩ startedAtCtx helloRecord).effects
      = [.sinkPrintln "", .sendLogOverHTTP ""] := by
  decide

/-! ## The shipper -/

namespace Pkg

theorem countP_set_phase (p : Phase → Bool) (l : List Phase) (i : Nat) (x old : Phase)
    (h : l[i]? = some old) :
    (l.set i x).countP p + (if p old then 1 else 0) = l.countP p + (if p x then 1 else 0) := by
  obtain ⟨hi, he⟩ := List.getElem?_eq_some.mp h
  have h1 := List.countP_set p l i x hi
  have h2 := List.boole_getElem_le_countP p l i hi
  rw [he] at h1 h2
  omega

theorem Inv_NewHandler : Inv NewHandler := by
  simp [Inv, NewHandler, holding, tracked]

/-- Every step keeps the invariant. -/
theorem step_Inv (s s1 : Shipper) (a : Action) (hinv : Inv s) (hstep : step s a = some s1) :
    Inv s1 := by
  obtain ⟨hcap, hq, hwg, hle, hpan⟩ := hinv
  cases a with
  | submit body =>
    simp only [step, Chan.send] at hstep
    split_ifs at hstep with hlt
    simp only [Option.some.injEq] at hstep
    subst hstep
    simp [Inv, holding, tracked, hcap, hpan, Phase.holdsSlot, Phase.pending] at *
    omega
  | doReturn i o =>
    simp only [step] at hstep
    split at hstep
    · next b hb =>
      simp only [Option.some.injEq] at hstep
      subst hstep
      have c1 := countP_set_phase Phase.holdsSlot s.sends i .afterDo _ hb
      have c2 := countP_set_phase Phase.pending s.sends i .afterDo _ hb
      simp [Inv, holding, tracked, hcap, hpan, Phase.holdsSlot, Phase.pending] at *
      omega
    · exact absurd hstep (by simp)
  | recv i =>
    simp only [step] at hstep
    split at hstep
    · next hb =>
      cases hbuf : s.maxQueue.buf with
      | nil => simp [Chan.recv, hbuf] at hstep
      | cons v rest =>
        simp only [Chan.recv, hbuf, Option.some.injEq] at hstep
        subst hstep
        have c1 := countP_set_phase Phase.holdsSlot s.sends i .released _ hb
        have c2 := countP_set_phase Phase.pending s.sends i .released _ hb
        simp [Inv, holding, tracked, hcap, hpan, Phase.holdsSlot, Phase.pending, hbuf] at *
        omega
    · exact absurd hstep (by simp)
  | done i =>
    simp only [step] at hstep
    split at hstep
    · next hb =>
      simp only [Option.some.injEq] at hstep
      subst hstep
      have c1 := countP_set_phase Phase.holdsSlot s.sends i .finished _ hb
      have c2 := countP_set_phase Phase.pending s.sends i .finished _ hb
      simp [Inv, holding, tracked, hcap, hpan, Phase.holdsSlot, Phase.pending] at *
      omega
    · exact absurd hstep (by simp)

/-- Every run keeps the invariant. -/
theorem run_Inv (acts : List Action) :
    ∀ (s s1 : Shipper), Inv s → run s acts = some s1 → Inv s1 := by
  induction acts with
  | nil =>
    intro s s1 hinv hrun
    simp only [run, Option.some.injEq] at hrun
    exact hrun ▸ hinv
  | cons a acts ih =>
    intro s s1 hinv hrun
    simp only [run] at hrun
    split at hrun
    · exact absurd hrun (by simp)
    · next s2 hs2 => exact ih s2 s1 (step_Inv s s2 a hinv hs2) hrun

theorem outstanding_le_holding (s : Shipper) : outstanding s ≤ holding s := by
  unfold outstanding holding
  apply List.countP_mono_left
  intro x _ hx
  cases x <;> simp_all [Phase.inFlight, Phase.holdsSlot]

/-- C6. Bounded concurrency: in every state reachable from `NewHandler` by
submissions and steps of the background sends, for any number of submissions,
at most 5 sends are outstanding; the sends holding a slot are exactly the tokens
in `maxQueue`, at most 5; and with 5 slots held a further submission cannot
proceed. -/
theorem C6_bounded_concurrency (acts : List Action) (s : Shipper)
    (hrun : run NewHandler acts = some s) :
    outstanding s ≤ 5 ∧ holding s ≤ 5 ∧ s.maxQueue.buf.length = holding s ∧
      (holding s = 5 → ∀ body, step s (.submit body) = none) := by
  obtain ⟨hcap, hq, _, hle, _⟩ := run_Inv acts NewHandler s Inv_NewHandler hrun
  have h1 := outstanding_le_holding s
  refine ⟨by omega, by omega, hq, ?_⟩
  intro h5 body
  simp [step, Chan.send, hcap, hq, h5]

/-- Witness of C6: ten submissions against a gate of five. -/
theorem C6_bounded_concurrency_witness :
    run NewHandler tenSubmits = some afterTen ∧ outstanding afterTen ≤ 5 ∧
      ∀ body, step afterTen (.submit body) = none :=
  have h : run NewHandler tenSubmits = some afterTen := by decide
  ⟨h, (C6_bounded_concurrency tenSubmits afterTen h).1,
    (C6_bounded_concurrency tenSubmits afterTen h).2.2.2 (by decide)⟩

/-- With five sends in flight the sixth submission blocks, and proceeds once
one of the sends has given its slot back. -/
theorem sixth_submit_blocks :
    run NewHandler fiveSubmits = some gateFull ∧
    step gateFull (.submit "b5") = none ∧
    (run gateFull [.doReturn 2 (.error "timeout"), .recv 2, .submit "b5"]).isSome = true := by
  decide

/-- C9. Completion of a background send: from every reachable state, a send
whose `client.Do` is in flight runs to its end for every outcome of the
transport call (any status code, any error), gives back exactly one slot of
`maxQueue` and lowers the counter of `wg` by exactly one, without panic; and in
a reachable state whose sends have all completed no slot is held, the counter is
zero, and a further submission is accepted. -/
theorem C9_completion_releases (acts : List Action) (s : Shipper)
    (hrun : run NewHandler acts = some s) :
    (∀ (i : Nat) (body : String) (o : Outcome), s.sends[i]? = some (.inDo body) →
      ∃ s1, complete s i o = some s1 ∧
        s1.maxQueue.buf.length + 1 = s.maxQueue.buf.length ∧ s1.wg + 1 = s.wg ∧
        s1.sends[i]? = some .finished ∧ s1.panicked = false) ∧
    ((∀ p ∈ s.sends, p = .finished) →
      s.maxQueue.buf.length = 0 ∧ s.wg = 0 ∧
        ∀ body, (step s (.submit body)).isSome = true) := by
  obtain ⟨hcap, hq, hwg, hle, hpan⟩ := run_Inv acts NewHandler s Inv_NewHandler hrun
  constructor
  · intro i body o hi
    obtain ⟨hlt, he⟩ := List.getElem?_eq_some.mp hi
    have hhold : 1 ≤ holding s := by
      have := List.boole_getElem_le_countP Phase.holdsSlot s.sends i hlt
      rw [he] at this
      simpa [holding, Phase.holdsSlot] using this
    have htr : 1 ≤ tracked s := by
      have := List.boole_getElem_le_countP Phase.pending s.sends i hlt
      rw [he] at this
      simpa [tracked, Phase.pending] using this
    cases hbuf : s.maxQueue.buf with
    | nil => rw [hbuf] at hq; simp at hq; omega
    | cons v rest =>
      have hneg : ¬ (s.wg - 1 < 0) := by omega
      have hc : complete s i o = some
          { maxQueue := ⟨s.maxQueue.cap, rest⟩, wg := s.wg - 1,
            sends := ((s.sends.set i .afterDo).set i .released).set i .finished,
            diag := s.diag ++ report o,
            panicked := s.panicked || decide (s.wg - 1 < 0) } := by
        simp [complete, run, step, hi, hlt, Chan.recv, hbuf]
      refine ⟨_, hc, ?_, ?_, ?_, ?_⟩
      · simp
      · simp
      · simp [hlt]
      · simp [hpan, hneg]
  · intro hall
    have hz : holding s = 0 := by
      simp only [holding, List.countP_eq_zero]
      intro a ha; rw [hall a ha]; simp [Phase.holdsSlot]
    have htz : tracked s = 0 := by
      simp only [tracked, List.countP_eq_zero]
      intro a ha; rw [hall a ha]; simp [Phase.pending]
    refine ⟨by omega, by simp [hwg, htz], ?_⟩
    intro body
    have : s.maxQueue.buf.length < s.maxQueue.cap := by omega
    simp [step, Chan.send, this]

/-- Witness of C9: three submissions completed with the three kinds of outcome
leave the gate empty and the counter at zero, and the next submission is
accepted. -/
theorem C9_completion_releases_witness :
    run NewHandler threeCompleted = some drained ∧
    (drained.maxQueue.buf.length = 0 ∧ drained.wg = 0 ∧
      ∀ body, (step drained (.submit body)).isSome = true) :=
  have h : run NewHandler threeCompleted = some drained := by decide
  ⟨h, (C9_completion_releases threeCompleted drained h).2 (by decide)⟩

end Pkg

/-! ## `FromRequest` -/

theorem appendRequestFields_eq_buildChain (grow : Nat → Nat) (h : Heap) (ctx : Context)
    (r : Request) :
    buildChain grow h (some ctx) (requestAttrs r)
      = ((appendRequestFields grow h ctx r).1, some (appendRequestFields grow h ctx r).2) := by
  simp only [requestAttrs, buildChain, appendRequestFields, Request.UserAgent]

theorem appendRequestFields_entries (grow : Nat → Nat) (h : Heap) (ctx : Context)
    (r : Request) (hv : ctx.valid h) :
    entries (appendRequestFields grow h ctx r).1 (appendRequestFields grow h ctx r).2
      = entries h ctx ++ requestAttrs r ∧
    (appendRequestFields grow h ctx r).2.valid (appendRequestFields grow h ctx r).1 := by
  have hb := buildChain_entries grow (requestAttrs r) h (some ctx) hv
  rw [appendRequestFields_eq_buildChain] at hb
  exact hb

theorem AppendCtx_some (grow : Nat → Nat) (h : Heap) (c : Context) (a : Attr)
    (hv : c.valid h) :
    entries (AppendCtx grow h (some c) a).1 (AppendCtx grow h (some c) a).2
      = entries h c ++ [a] ∧
    (AppendCtx grow h (some c) a).2.valid (AppendCtx grow h (some c) a).1 :=
  ⟨AppendCtx_entries grow h (some c) a hv, AppendCtx_valid grow h (some c) a hv⟩

theorem Context.background_valid (h : Heap) : Context.background.valid h := by
  simp [Context.valid, Context.attrs, Context.Value]

theorem Context.background_entries (h : Heap) : entries h Context.background = [] := by
  simp [entries, Context.attrs, Context.Value]

theorem Root.FromRequest_nil_entries (grow : Nat → Nat) (getenv : String → String)
    (rnd : Nat → Nat) (now : Time) (h : Heap) :
    entries (Root.FromRequest grow getenv rnd now h none).1
        (Root.FromRequest grow getenv rnd now h none).2.2
      = [slogString "id" (randSeq rnd 24), slogString "service" (getenv "SERVICE_NAME"),
          slogTime "startedAt" now] ∧
    (Root.FromRequest grow getenv rnd now h none).2.2.valid
      (Root.FromRequest grow getenv rnd now h none).1 := by
  obtain ⟨e1, v1⟩ := AppendCtx_some grow h .background (slogString "id" (randSeq rnd 24))
    (Context.background_valid h)
  obtain ⟨e2, v2⟩ := AppendCtx_some grow _ _ (slogString "service" (getenv "SERVICE_NAME")) v1
  obtain ⟨e3, v3⟩ := AppendCtx_some grow _ _ (slogTime "startedAt" now) v2
  rw [e2, e1, Context.background_entries] at e3
  simp only [Root.FromRequest]
  exact ⟨e3, v3⟩

theorem Root.FromRequest_root_entries (grow : Nat → Nat) (getenv : String → String)
    (rnd : Nat → Nat) (now : Time) (h : Heap) (r : Request) :
    entries (Root.FromRequest grow getenv rnd now h (some r)).1
        (Root.FromRequest grow getenv rnd now h (some r)).2.2
      = [slogString "id" (randSeq rnd 24), slogString "service" (getenv "SERVICE_NAME"),
          slogTime "startedAt" now] ++ requestAttrs r := by
  obtain ⟨e3, v3⟩ := Root.FromRequest_nil_entries grow getenv rnd now h
  simp only [Root.FromRequest] at e3 v3 ⊢
  generalize AppendCtx grow _ _ (slogTime "startedAt" now) = c at e3 v3 ⊢
  rw [(appendRequestFields_entries grow _ _ r v3).1, e3]

theorem Pkg.FromRequest_pkg_entries (grow : Nat → Nat) (serviceName : String)
    (rnd : Nat → Nat) (h : Heap) (r : Request) (hv : validOpt h r.ctx) :
    ∃ h2 r2, Pkg.FromRequest grow serviceName rnd h (some r) = .ok (h2, r2) ∧
      entriesOpt h2 r2.ctx = entriesOpt h r.ctx ++
        ([slogString "id" (randSeq rnd 24)] ++ requestAttrs r
          ++ [slogString "service" serviceName]) := by
  have key : ∀ c : Context, c.valid h → requestContext (some r) = .ok c →
      ∃ h2 r2, Pkg.FromRequest grow serviceName rnd h (some r) = .ok (h2, r2) ∧
        entriesOpt h2 r2.ctx = entries h c ++
          ([slogString "id" (randSeq rnd 24)] ++ requestAttrs r
            ++ [slogString "service" serviceName]) := by
    intro c hc hreq
    obtain ⟨e1, v1⟩ := AppendCtx_some grow h c (slogString "id" (randSeq rnd 24)) hc
    simp only [Pkg.FromRequest, hreq, requestWithContext]
    generalize AppendCtx grow h (some c) (slogString "id" (randSeq rnd 24)) = c1 at e1 v1 ⊢
    obtain ⟨e2, v2⟩ := appendRequestFields_entries grow _ _ r v1
    generalize appendRequestFields grow c1.1 c1.2 r = c2 at e2 v2 ⊢
    obtain ⟨e3, _⟩ := AppendCtx_some grow _ _ (slogString "service" serviceName) v2
    generalize AppendCtx grow c2.1 (some c2.2) (slogString "service" serviceName) = c3 at e3 ⊢
    refine ⟨_, _, rfl, ?_⟩
    simp only [entriesOpt]
    rw [e3, e2, e1]
    simp
  cases hctx : r.ctx with
  | none =>
    have := key Context.background (Context.background_valid h) (by simp [requestContext, hctx])
    simpa [entriesOpt, Context.background_entries] using this
  | some c =>
    have := key c (by simpa [hctx, validOpt] using hv) (by simp [requestContext, hctx])
    simpa [entriesOpt] using this
theorem headerGet_absent (hd : List (String × List String)) (key : String)
    (h : hd.lookup (canonicalMIMEHeaderKey key) = none) : headerGet hd key = "" := by
  simp [headerGet, h]

theorem Request.chain_none_entries (h : Heap) (r : Request) (hno : r.chain = none) :
    entriesOpt h r.ctx = [] ∧ validOpt h r.ctx := by
  unfold Request.chain at hno
  cases hc : r.ctx with
  | none => simp [entriesOpt, validOpt]
  | some c =>
    rw [hc] at hno
    simp only at hno
    simp [entriesOpt, validOpt, entries, Context.valid, hno]

/-- C7 (as the code has it). For every request: `FromRequest` of `src/log.go`
gives the chain `id, service, startedAt, query, user-agent, ip, host, method,
x-forwarded-for, country, content-type, path`; `FromRequest` of
`src/pkg/logthis.go`, for a request arriving with no prior chain, returns
normally with the chain `id, query, user-agent, ip, host, method,
x-forwarded-for, country, content-type, path, service` (no `startedAt`, and
`service` last).  Every key is present for every request, and a header that is
absent reads as the empty string. -/
theorem C7_FromRequest_fields (grow : Nat → Nat) (getenv : String → String)
    (serviceName : String) (rnd : Nat → Nat) (now : Time) (h : Heap) (r : Request)
    (hno : r.chain = none) :
    (entries (Root.FromRequest grow getenv rnd now h (some r)).1
        (Root.FromRequest grow getenv rnd now h (some r)).2.2
      = [slogString "id" (randSeq rnd 24), slogString "service" (getenv "SERVICE_NAME"),
          slogTime "startedAt" now] ++ requestAttrs r ∧
     (entries (Root.FromRequest grow getenv rnd now h (some r)).1
        (Root.FromRequest grow getenv rnd now h (some r)).2.2).map (fun a => a.Key)
      = ["id", "service", "startedAt", "query", "user-agent", "ip", "host", "method",
         "x-forwarded-for", "country", "content-type", "path"]) ∧
    (∃ h2 r2, Pkg.FromRequest grow serviceName rnd h (some r) = .ok (h2, r2) ∧
      entriesOpt h2 r2.ctx = [slogString "id" (randSeq rnd 24)] ++ requestAttrs r
          ++ [slogString "service" serviceName] ∧
      (entriesOpt h2 r2.ctx).map (fun a => a.Key)
        = ["id", "query", "user-agent", "ip", "host", "method",
           "x-forwarded-for", "country", "content-type", "path", "service"]) ∧
    (∀ key, r.Header.lookup (canonicalMIMEHeaderKey key) = none →
      headerGet r.Header key = "") := by
  refine ⟨?_, ?_, headerGet_absent r.Header⟩
  · have he := Root.FromRequest_root_entries grow getenv rnd now h r
    refine ⟨he, ?_⟩
    rw [he]
    simp [requestAttrs, slogString, slogTime]
  · obtain ⟨hnil, hv⟩ := Request.chain_none_entries h r hno
    obtain ⟨h2, r2, hok, he⟩ := Pkg.FromRequest_pkg_entries grow serviceName rnd h r hv
    rw [hnil, List.nil_append] at he
    refine ⟨h2, r2, hok, he, ?_⟩
    rw [he]
    simp [requestAttrs, slogString]

/-- Witness of C7: the sample request, which has neither `CF-IPCountry` nor
`content-type`. -/
theorem C7_FromRequest_fields_witness :
    (entries (Root.FromRequest goGrow (fun _ => "svc") (fun _ => 0) 7 [] (some sampleRequest)).1
        (Root.FromRequest goGrow (fun _ => "svc") (fun _ => 0) 7 [] (some sampleRequest)).2.2
      ).map (fun a => a.Key)
      = ["id", "service", "startedAt", "query", "user-agent", "ip", "host", "method",
         "x-forwarded-for", "country", "content-type", "path"] ∧
    headerGet sampleRequest.Header "CF-IPCountry" = "" ∧
    headerGet sampleRequest.Header "content-type" = "" :=
  have h := C7_FromRequest_fields goGrow (fun _ => "svc") "svc" (fun _ => 0) 7 []
    sampleRequest (by decide)
  ⟨h.1.2, h.2.2 "CF-IPCountry" (by decide), h.2.2 "content-type" (by decide)⟩

/-- C7 as stated fails for `src/pkg/logthis.go`: for the sample request its
chain has eleven keys, with no `startedAt` and with `service` last, not the
twelve keys of the claim. -/
theorem C7_counterexample :
    pkgKeys (some sampleRequest)
      = ["id", "query", "user-agent", "ip", "host", "method",
         "x-forwarded-for", "country", "content-type", "path", "service"] ∧
    pkgKeys (some sampleRequest)
      ≠ ["id", "service", "startedAt", "query", "user-agent", "ip", "host", "method",
         "x-forwarded-for", "country", "content-type", "path"] := by
  decide

theorem lastValue_append (a b : List Attr) (k : String) :
    lastValue (a ++ b) k =
      match lastValue b k with
      | some v => some v
      | none => lastValue a k := by
  induction b using List.reverseRecOn with
  | nil => simp [lastValue]
  | append_singleton b e ih =>
    rw [← List.append_assoc, lastValue_append_singleton, lastValue_append_singleton, ih]
    by_cases h : e.Key = k <;> simp [h]

theorem clientIp_cases (r : Request) :
    (headerGet r.Header "X-Forwarded-For" ≠ "" → headerGet r.Header "CF-Connecting-IP" ≠ "" →
      clientIp r = headerGet r.Header "X-Forwarded-For" ++ "," ++
        headerGet r.Header "CF-Connecting-IP") ∧
    (headerGet r.Header "X-Forwarded-For" ≠ "" → headerGet r.Header "CF-Connecting-IP" = "" →
      clientIp r = headerGet r.Header "X-Forwarded-For") ∧
    (headerGet r.Header "X-Forwarded-For" = "" → headerGet r.Header "CF-Connecting-IP" ≠ "" →
      clientIp r = headerGet r.Header "CF-Connecting-IP") ∧
    (headerGet r.Header "X-Forwarded-For" = "" → headerGet r.Header "CF-Connecting-IP" = "" →
      clientIp r = "") := by
  refine ⟨?_, ?_, ?_, ?_⟩ <;> intro hx hc <;> simp [clientIp, hx, hc]

/-- C8. Client-IP field, both files: for every request, with `x` the
`X-Forwarded-For` value and `c` the `CF-Connecting-IP` value (an absent header
reading as `""`), the chain's `x-forwarded-for` value is `x ++ "," ++ c` when
both are non-empty, `x` when only `x` is, `c` when only `c` is, and `""` when
both are empty. -/
theorem C8_client_ip (grow : Nat → Nat) (getenv : String → String)
    (serviceName : String) (rnd : Nat → Nat) (now : Time) (h : Heap) (r : Request)
    (hv : validOpt h r.ctx) :
    lastValue (entries (Root.FromRequest grow getenv rnd now h (some r)).1
        (Root.FromRequest grow getenv rnd now h (some r)).2.2) "x-forwarded-for"
      = some (.StringValue (clientIp r)) ∧
    (∃ h2 r2, Pkg.FromRequest grow serviceName rnd h (some r) = .ok (h2, r2) ∧
      lastValue (entriesOpt h2 r2.ctx) "x-forwarded-for" = some (.StringValue (clientIp r))) ∧
    ((headerGet r.Header "X-Forwarded-For" ≠ "" → headerGet r.Header "CF-Connecting-IP" ≠ "" →
      clientIp r = headerGet r.Header "X-Forwarded-For" ++ "," ++
        headerGet r.Header "CF-Connecting-IP") ∧
    (headerGet r.Header "X-Forwarded-For" ≠ "" → headerGet r.Header "CF-Connecting-IP" = "" →
      clientIp r = headerGet r.Header "X-Forwarded-For") ∧
    (headerGet r.Header "X-Forwarded-For" = "" → headerGet r.Header "CF-Connecting-IP" ≠ "" →
      clientIp r = headerGet r.Header "CF-Connecting-IP") ∧
    (headerGet r.Header "X-Forwarded-For" = "" → headerGet r.Header "CF-Connecting-IP" = "" →
      clientIp r = "")) := by
  refine ⟨?_, ?_, clientIp_cases r⟩
  · rw [Root.FromRequest_root_entries]
    simp [lastValue, requestAttrs, slogString, slogTime]
  · obtain ⟨h2, r2, hok, he⟩ := Pkg.FromRequest_pkg_entries grow serviceName rnd h r hv
    refine ⟨h2, r2, hok, ?_⟩
    rw [he, lastValue_append]
    simp [lastValue, requestAttrs, slogString]

/-- Witness of C8: a request carrying both headers; the value is the two joined
by one comma. -/
theorem C8_client_ip_witness :
    lastValue (entries (Root.FromRequest goGrow (fun _ => "svc") (fun _ => 0) 7 []
          (some proxiedRequest)).1
        (Root.FromRequest goGrow (fun _ => "svc") (fun _ => 0) 7 []
          (some proxiedRequest)).2.2) "x-forwarded-for"
      = some (.StringValue (clientIp proxiedRequest)) ∧
    clientIp proxiedRequest = "10.0.0.1,198.51.100.9" :=
  have h := C8_client_ip goGrow (fun _ => "svc") "svc" (fun _ => 0) 7 [] proxiedRequest
    (by decide)
  ⟨h.1, (h.2.2.1 (by decide) (by decide)).trans (by decide)⟩

/-- C10 (the code at the failing input). On a nil request, `FromRequest` of
`src/pkg/logthis.go` panics with a nil dereference (at `r.Context()`, before its
`r != nil` guard), whatever the other inputs; `FromRequest` of `src/log.go`
returns a nil request and the chain `id, service, startedAt`. -/
theorem C10_nil_request (grow : Nat → Nat) (getenv : String → String)
    (serviceName : String) (rnd : Nat → Nat) (now : Time) (h : Heap) :
    Pkg.FromRequest grow serviceName rnd h none = .error .nilDereference ∧
    (Root.FromRequest grow getenv rnd now h none).2.1 = none ∧
    entries (Root.FromRequest grow getenv rnd now h none).1
        (Root.FromRequest grow getenv rnd now h none).2.2
      = [slogString "id" (randSeq rnd 24), slogString "service" (getenv "SERVICE_NAME"),
          slogTime "startedAt" now] := by
  exact ⟨rfl, rfl, (Root.FromRequest_nil_entries grow getenv rnd now h).1⟩

end LogThis
